import Mathlib

/-
A shallow embedding of the thumbgen compositing/layout engine
(src/thumbgen): bounds-safe alpha blitting (utils/images.py), background
cover-fit (renderer/background.py, which delegates to Pillow ImageOps.fit),
character placement (pipeline.py and renderer/character.py), dual-card
content cropping (renderer/dual_card.py), the crypto-card glow band,
dominant-color scan and iterative text fitting (renderer/crypto_card.py),
provider-logo loading fallbacks (loader.py) and the pipeline layout
dispatch (pipeline.py).

Modelling conventions: Python float arithmetic is modelled by exact
rationals; Python int() applied to a nonnegative value is the floor, and in
general truncation toward zero; Python // on integers is floor division.
Pillow font rasterization is external to the repository and is abstracted
as a per-line metrics function; every other quantity is computed exactly as
in the source.
-/

namespace Thumbgen

/-- Python int() applied to a float value, on an exact rational: truncation
toward zero. -/
def pyInt (q : ℚ) : ℤ := if 0 ≤ q then ⌊q⌋ else ⌈q⌉

/-- Python // (floor division) on integers. -/
def pyDiv (a b : ℤ) : ℤ := Int.fdiv a b

/-- Canvas width (constants.py, CANVAS_SIZE). -/
def CANVAS_W : ℕ := 440

/-- Canvas height (constants.py, CANVAS_SIZE). -/
def CANVAS_H : ℕ := 590

/-- An RGBA pixel with exact rational channel values in [0, 255]. -/
abbrev Pixel := ℚ × ℚ × ℚ × ℚ

/-- A decoded RGBA image: dimensions plus a total pixel map over global
integer coordinates; only [0, width) x [0, height) is meaningful. -/
structure Img where
  width : ℕ
  height : ℕ
  pix : ℤ → ℤ → Pixel

/-- Straight alpha-over blend of a source RGBA pixel onto a destination
pixel, the per-pixel semantics of Pillow Image.alpha_composite, in exact
rational arithmetic. -/
def blend (dst src : Pixel) : Pixel :=
  let (dr, dg, db, da) := dst
  let (sr, sg, sb, sa) := src
  let outA := sa + da * (255 - sa) / 255
  if outA = 0 then (0, 0, 0, 0)
  else
    ((sr * sa + dr * da * (255 - sa) / 255) / outA,
     (sg * sa + dg * da * (255 - sa) / 255) / outA,
     (sb * sa + db * da * (255 - sa) / 255) / outA,
     outA)

/-- Width of the overlap region computed by alpha_composite
(utils/images.py): with src_x = max(0, -x) and dst_x = max(0, x), the value
min(overlay.width - src_x, base.width - dst_x). -/
def overlapW (base overlay : Img) (x : ℤ) : ℤ :=
  min ((overlay.width : ℤ) - max 0 (-x)) ((base.width : ℤ) - max 0 x)

/-- Height of the overlap region computed by alpha_composite
(utils/images.py), analogous to overlapW. -/
def overlapH (base overlay : Img) (y : ℤ) : ℤ :=
  min ((overlay.height : ℤ) - max 0 (-y)) ((base.height : ℤ) - max 0 y)

/-- alpha_composite (utils/images.py): blend the overlay onto the base at
position (x, y), clipping to the base bounds.  When the clipped region is
nonempty the overlay is cropped to it and blended at (dst_x, dst_y) =
(max 0 x, max 0 y); the overlay pixel blended at destination (i, j) is the
one at (i - x, j - y).  When the region is empty nothing happens.
compositePix is the pixel map of the composite in the nonempty case. -/
def compositePix (base overlay : Img) (x y i j : ℤ) : Pixel :=
  if max 0 x ≤ i ∧ i < max 0 x + overlapW base overlay x ∧
      max 0 y ≤ j ∧ j < max 0 y + overlapH base overlay y then
    blend (base.pix i j) (overlay.pix (i - x) (j - y))
  else base.pix i j

def alpha_composite (base overlay : Img) (x y : ℤ) : Img :=
  if 0 < overlapW base overlay x ∧ 0 < overlapH base overlay y then
    { base with pix := compositePix base overlay x y }
  else base

/-- The crop window Pillow ImageOps.fit(image, size, centering) selects
before resizing to `size` (modelled from Pillow because
renderer/background.py delegates the cover-fit to it): the largest box of
the output aspect ratio inside the source, positioned by `centering`,
returned as (left, top, width, height) in exact rational coordinates. -/
def fitCropBox (srcW srcH outW outH : ℕ) (cx cy : ℚ) : ℚ × ℚ × ℚ × ℚ :=
  let liveRatio : ℚ := (srcW : ℚ) / srcH
  let outRatio : ℚ := (outW : ℚ) / outH
  let cropW : ℚ := if outRatio ≤ liveRatio then outRatio * srcH else srcW
  let cropH : ℚ := if outRatio ≤ liveRatio then (srcH : ℚ) else (srcW : ℚ) / outRatio
  (((srcW : ℚ) - cropW) * cx, ((srcH : ℚ) - cropH) * cy, cropW, cropH)

/-- render_background (renderer/background.py): ImageOps.fit of the source
onto the fixed canvas with centering (0.5, 0.00); the result records the
exact output dimensions together with the source crop window that is
resized onto them. -/
def render_background (srcW srcH : ℕ) : (ℕ × ℕ) × (ℚ × ℚ × ℚ × ℚ) :=
  ((CANVAS_W, CANVAS_H), fitCropBox srcW srcH CANVAS_W CANVAS_H (1/2) 0)

/-- The cover scale factor named by the specification: the larger of the
width-fit and height-fit scale factors of the source onto the canvas. -/
def coverScale (srcW srcH : ℕ) : ℚ :=
  max ((CANVAS_W : ℚ) / srcW) ((CANVAS_H : ℚ) / srcH)

/-- Dimensions of a source image. -/
structure Dim where
  w : ℕ
  h : ℕ
deriving DecidableEq

/-- Horizontal spacing between characters as a fraction of canvas width
(constants.py, CHAR_SPACING_RATIO). -/
def charSpacingRatio : ℚ := 5/100

/-- Maximum total character group width as a fraction of canvas width
(constants.py, CHAR_MAX_WIDTH_RATIO). -/
def charMaxWidthRatio : ℚ := 90/100

/-- A placed element of the canvas: resized dimensions and top-left offset. -/
structure Placed where
  w : ℤ
  h : ℤ
  x : ℤ
  y : ℤ
deriving DecidableEq

/-- First scaling pass of render_characters (renderer/character.py): scale a
character so that its larger dimension equals the target size, keeping the
aspect ratio, with Python int() rounding. -/
def scaleToTarget (targetSize : ℤ) (d : Dim) : ℤ × ℤ :=
  (pyInt ((d.w : ℚ) * ((targetSize : ℚ) / (max d.w d.h : ℕ))),
   pyInt ((d.h : ℚ) * ((targetSize : ℚ) / (max d.w d.h : ℕ))))

/-- Shared character target size (renderer/character.py):
int(CANVAS_H * height_ratio). -/
def charTargetSize (height_ratio : ℚ) : ℤ := pyInt ((CANVAS_H : ℚ) * height_ratio)

/-- Pixel spacing between characters before any downscaling
(renderer/character.py): int(CANVAS_W * spacing_ratio). -/
def charSpacing0 : ℤ := pyInt ((CANVAS_W : ℚ) * charSpacingRatio)

/-- The scaled character sizes after the first pass of render_characters. -/
def scaledPass1 (chars : List Dim) (height_ratio : ℚ) : List (ℤ × ℤ) :=
  chars.map (scaleToTarget (charTargetSize height_ratio))

/-- Total group width of a list of scaled character sizes with the given
inter-character spacing: the sum of the widths plus spacing between
consecutive characters (renderer/character.py). -/
def totalWidthOf (scaled : List (ℤ × ℤ)) (spacing : ℤ) (n : ℕ) : ℤ :=
  (scaled.map Prod.fst).sum + (if 1 < n then spacing * (n - 1) else 0)

/-- Group width before any downscaling (renderer/character.py). -/
def initialTotalWidth (chars : List Dim) (height_ratio : ℚ) : ℤ :=
  totalWidthOf (scaledPass1 chars height_ratio) charSpacing0 chars.length

/-- The uniform downscale factor applied when the group overflows
(renderer/character.py): (CANVAS_W * max_width_ratio) / total_width. -/
def groupDownScale (chars : List Dim) (height_ratio : ℚ) : ℚ :=
  ((CANVAS_W : ℚ) * charMaxWidthRatio) / (initialTotalWidth chars height_ratio : ℚ)

/-- The scaled character sizes after the optional uniform downscale pass
(renderer/character.py: if total_width > CANVAS_W * max_width_ratio,
re-resize everything by the shared scale_down factor). -/
def finalScaled (chars : List Dim) (height_ratio : ℚ) : List (ℤ × ℤ) :=
  if (CANVAS_W : ℚ) * charMaxWidthRatio < (initialTotalWidth chars height_ratio : ℚ) then
    (scaledPass1 chars height_ratio).map (fun p =>
      (pyInt ((p.1 : ℚ) * groupDownScale chars height_ratio),
       pyInt ((p.2 : ℚ) * groupDownScale chars height_ratio)))
  else scaledPass1 chars height_ratio

/-- The inter-character spacing after the optional uniform downscale pass. -/
def finalSpacing (chars : List Dim) (height_ratio : ℚ) : ℤ :=
  if (CANVAS_W : ℚ) * charMaxWidthRatio < (initialTotalWidth chars height_ratio : ℚ) then
    pyInt ((charSpacing0 : ℚ) * groupDownScale chars height_ratio)
  else charSpacing0

/-- The placement fold of render_characters: walk the scaled sizes left to
right from the starting x, bottom-anchoring every character at the shared
bottom anchor and advancing by width plus spacing. -/
def placeChars (bottom spacing : ℤ) : List (ℤ × ℤ) → ℤ → List Placed
  | [], _ => []
  | (w, h) :: rest, cur => ⟨w, h, cur, bottom - h⟩ :: placeChars bottom spacing rest (cur + w + spacing)

/-- render_characters (renderer/character.py): scale 1-3 characters to a
shared target size, uniformly downscale characters and spacing when the
group exceeds the maximum width ratio of the canvas, then center the group
horizontally and bottom-anchor every character at int(CANVAS_H * 0.95). -/
def render_characters (chars : List Dim) (height_ratio : ℚ) : List Placed :=
  if chars.isEmpty then []
  else
    placeChars (pyInt ((CANVAS_H : ℚ) * (95/100))) (finalSpacing chars height_ratio)
      (finalScaled chars height_ratio)
      (pyDiv ((CANVAS_W : ℤ) -
        totalWidthOf (finalScaled chars height_ratio) (finalSpacing chars height_ratio)
          chars.length) 2)

/-- Right edge of the last placed element of a group (0 for an empty group). -/
def lastEdge (ps : List Placed) : ℤ :=
  match ps.getLast? with
  | some p => p.x + p.w
  | none => 0

/-- The roles of the elements pasted onto the canvas by the pyramid branch
of generate_thumbnail (pipeline.py, three characters in default mode). -/
inductive PaintKind
  | middleAsset
  | middleGlow
  | leftAsset
  | rightAsset
deriving DecidableEq, BEq

/-- One alpha_composite call of the pyramid branch: what is pasted, where,
and at which resized dimensions. -/
structure PaintOp where
  kind : PaintKind
  x : ℤ
  y : ℤ
  w : ℤ
  h : ℤ
deriving DecidableEq

/-- Gaussian blur radius of the pyramid glow (pipeline.py). -/
def pyramidGlowBlur : ℕ := 48

/-- Alpha/point scale factor of the pyramid glow (pipeline.py): p * 0.85. -/
def pyramidGlowAlphaScale : ℚ := 85/100

/-- The pyramid branch of generate_thumbnail (pipeline.py, exactly three
characters in default mode): the sequence of alpha_composite calls onto
the canvas in source order.  The glow is the resized middle asset blurred
(GaussianBlur keeps dimensions, radius pyramidGlowBlur) and alpha-scaled by
pyramidGlowAlphaScale, pasted 25 pixels up and left of the asset. -/
def pyramidPaintOps (c0 c1 c2 : Dim) : List PaintOp :=
  let pyramid_target_h := pyInt ((CANVAS_H : ℚ) * (95/100))
  let pyramid_w := pyInt ((c1.w : ℚ) * ((pyramid_target_h : ℚ) / (c1.h : ℚ)))
  let pyramid_x := pyDiv ((CANVAS_W : ℤ) - pyramid_w) 2
  let pyramid_y := pyInt ((CANVAS_H : ℚ) * (38/100)) - pyDiv pyramid_target_h 2
  let cat_target_h := pyInt ((CANVAS_H : ℚ) * (42/100))
  let left_w := pyInt ((c0.w : ℚ) * ((cat_target_h : ℚ) / (c0.h : ℚ)))
  let right_w := pyInt ((c2.w : ℚ) * ((cat_target_h : ℚ) / (c2.h : ℚ)))
  let cats_center_y := pyInt ((CANVAS_H : ℚ) * (58/100))
  let left_x := pyInt ((CANVAS_W : ℚ) * (30/100)) - pyDiv left_w 2
  let right_x := pyInt ((CANVAS_W : ℚ) * (70/100)) - pyDiv right_w 2
  let left_y := cats_center_y - pyDiv cat_target_h 2
  let right_y := cats_center_y - pyDiv cat_target_h 2
  [⟨.middleAsset, pyramid_x, pyramid_y, pyramid_w, pyramid_target_h⟩,
   ⟨.middleGlow, pyramid_x - 25, pyramid_y - 25, pyramid_w, pyramid_target_h⟩,
   ⟨.leftAsset, left_x, left_y, left_w, cat_target_h⟩,
   ⟨.rightAsset, right_x, right_y, right_w, cat_target_h⟩]

/-- Abstract per-line Pillow font metrics: the value at (i, size) is the
(width, height) that ImageDraw.textbbox reports for line i of the block at
pixel font size `size`.  Font rasterization is outside the repository
(Pillow plus a font file); everything downstream is embedded from
renderer/crypto_card.py. -/
abbrev LineMetrics := ℕ → ℕ → ℕ × ℕ

/-- The pixel font size measure_text_block (renderer/crypto_card.py)
derives from a ratio: max(1, int(canvas_h * font_ratio)). -/
def fontSizeOf (canvas_h : ℕ) (font_ratio : ℚ) : ℕ :=
  max 1 (pyInt ((canvas_h : ℚ) * font_ratio)).toNat

/-- measure_text_block (renderer/crypto_card.py) at the default line gap
ratio 0.01 used by every call site: the (total_height, max_width) of the
block of `numLines` lines at the font size derived from `font_ratio`,
heights summed with int(canvas_h * 0.01) between consecutive lines, width
the maximum line width starting from 0. -/
def measure_text_block (metrics : LineMetrics) (numLines : ℕ) (font_ratio : ℚ)
    (canvas_h : ℕ) : ℕ × ℕ :=
  (((List.range numLines).map (fun i => (metrics i (fontSizeOf canvas_h font_ratio)).2)).sum
      + (pyInt ((canvas_h : ℚ) * (1/100))).toNat * (numLines - 1),
   ((List.range numLines).map (fun i => (metrics i (fontSizeOf canvas_h font_ratio)).1)).foldl
      max 0)

/-- The inputs of the title-fitting loop of render_crypto_card
(renderer/crypto_card.py): title line metrics and count, canvas size,
whether a provider line is present, and the text_scale parameter. -/
structure CryptoTextParams where
  metrics : LineMetrics
  numLines : ℕ
  canvas_w : ℕ
  canvas_h : ℕ
  hasProvider : Bool
  text_scale : ℚ

/-- Top of the text area (renderer/crypto_card.py): int(canvas_height * 0.68). -/
def text_area_start (p : CryptoTextParams) : ℤ := pyInt ((p.canvas_h : ℚ) * (68/100))

/-- Bottom of the text area (renderer/crypto_card.py): int(canvas_height * 0.95). -/
def text_area_end (p : CryptoTextParams) : ℤ := pyInt ((p.canvas_h : ℚ) * (95/100))

/-- Available width for the title (renderer/crypto_card.py):
int(canvas_width * 0.92). -/
def available_width (p : CryptoTextParams) : ℤ := pyInt ((p.canvas_w : ℚ) * (92/100))

/-- Minimum title-to-provider gap (renderer/crypto_card.py):
int(canvas_height * 0.04). -/
def min_gap (p : CryptoTextParams) : ℤ := pyInt ((p.canvas_h : ℚ) * (4/100))

/-- Height reserved for the provider line (renderer/crypto_card.py):
int(canvas_height * 0.03) when a provider is present, else 0. -/
def min_provider_height (p : CryptoTextParams) : ℤ :=
  if p.hasProvider then pyInt ((p.canvas_h : ℚ) * (3/100)) else 0

/-- Maximum title block height when a provider must also fit
(renderer/crypto_card.py): available_height - min_gap - min_provider_height. -/
def max_title_height (p : CryptoTextParams) : ℤ :=
  (text_area_end p - text_area_start p) - min_gap p - min_provider_height p

/-- The damping factor of the title-fit rescale (renderer/crypto_card.py):
scale = (available / actual) * 0.92. -/
def titleFitDamping : ℚ := 92/100

/-- One iteration of the title-fitting loop of render_crypto_card: none when
the measured block fits both constraints (the loop breaks), otherwise the
ratio rescaled by (available / actual) * damping, width overflow taking
precedence over height overflow. -/
def titleFitStep (p : CryptoTextParams) (ratio : ℚ) : Option ℚ :=
  let m := measure_text_block p.metrics p.numLines ratio p.canvas_h
  if ((m.2 : ℤ) ≤ available_width p) ∧
      (if p.hasProvider then ((m.1 : ℤ) ≤ max_title_height p) else True) then none
  else if ¬ ((m.2 : ℤ) ≤ available_width p) then
    some (ratio * (((available_width p : ℚ) / (m.2 : ℚ)) * titleFitDamping))
  else
    some (ratio * (((max_title_height p : ℚ) / (m.1 : ℚ)) * titleFitDamping))

/-- The title-fitting loop with explicit fuel, returning the final ratio and
the number of measurements made. -/
def titleFitLoop (p : CryptoTextParams) : ℕ → ℚ → ℚ × ℕ
  | 0, ratio => (ratio, 0)
  | n + 1, ratio =>
    match titleFitStep p ratio with
    | none => (ratio, 1)
    | some r2 =>
      let next := titleFitLoop p n r2
      (next.1, next.2 + 1)

/-- The title fit of render_crypto_card: initial ratio 0.15 * text_scale and
at most 10 loop iterations (for _ in range(10)). -/
def titleFit (p : CryptoTextParams) : ℚ × ℕ :=
  titleFitLoop p 10 ((15/100) * p.text_scale)

/-- The floor applied to the provider ratio (renderer/crypto_card.py):
provider_ratio = max(0.03, provider_ratio * scale). -/
def providerRatioFloor : ℚ := 3/100

/-- The provider sizing of render_crypto_card: base ratio 0.045, measured
once; when the measured line overflows the available width or the height
left above the bottom padding, the ratio is shrunk by
min(scale_w, scale_h) * 0.9 and clamped at the 0.03 floor. -/
def providerFit (pm : LineMetrics) (canvas_w canvas_h : ℕ) : ℚ :=
  let m := measure_text_block pm 1 (45/1000) canvas_h
  let avW := pyInt ((canvas_w : ℚ) * (92/100))
  let max_provider_h := max 1
    (pyInt ((canvas_h : ℚ) * (95/100)) - pyInt ((canvas_h : ℚ) * (4/100))
      - pyInt ((canvas_h : ℚ) * (68/100)))
  if avW < (m.2 : ℤ) ∨ max_provider_h < (m.1 : ℤ) then
    let scale_w : ℚ := if m.2 ≠ 0 then (avW : ℚ) / (m.2 : ℚ) else 1
    let scale_h : ℚ := if m.1 ≠ 0 then (max_provider_h : ℚ) / (m.1 : ℚ) else 1
    max providerRatioFloor ((45/1000) * (min scale_w scale_h * (9/10)))
  else 45/1000

/-- Font metrics of a very wide single-line title: width 100 pixels per
point of font size, height equal to the font size. -/
def wideLineMetrics : LineMetrics := fun _ size => (100 * size, size)

/-- Title-fit parameters at the default canvas: one wide title line, no
provider, text_scale 1. -/
def wideTitleParams : CryptoTextParams :=
  ⟨wideLineMetrics, 1, 440, 590, false, 1⟩

/-- Channel variance of an (r, g, b) color as computed by the dominant-color
scan of render_crypto_card: abs(r - avg) + abs(g - avg) + abs(b - avg) with
avg = (r + g + b) / 3. -/
def chanVariance (r g b : ℕ) : ℚ :=
  |(r : ℚ) - ((r : ℚ) + g + b) / 3| + |(g : ℚ) - ((r : ℚ) + g + b) / 3|
    + |(b : ℚ) - ((r : ℚ) + g + b) / 3|

/-- First-scan predicate of the dominant-color scan
(renderer/crypto_card.py): channel variance above 30 and total brightness
above 100. -/
def vividColor (c : ℕ × ℕ × ℕ) : Bool :=
  decide (30 < chanVariance c.1 c.2.1 c.2.2) && decide (100 < c.1 + c.2.1 + c.2.2)

/-- Second-scan predicate of the dominant-color scan
(renderer/crypto_card.py): neither near-black nor near-white,
30 < r + g + b < 700. -/
def midBrightness (c : ℕ × ℕ × ℕ) : Bool :=
  decide (30 < c.1 + c.2.1 + c.2.2) && decide (c.1 + c.2.1 + c.2.2 < 700)

/-- Stable insertion into a count-descending palette list: the entry goes in
front of the first entry of smaller-or-equal count, so equal counts keep
their original relative order, as with Python list.sort(reverse=True). -/
def insertByCount (e : ℕ × ℕ × ℕ × ℕ) :
    List (ℕ × ℕ × ℕ × ℕ) → List (ℕ × ℕ × ℕ × ℕ)
  | [] => [e]
  | f :: rest => if f.1 ≤ e.1 then e :: f :: rest else f :: insertByCount e rest

/-- Stable sort of a palette by count, most frequent first
(colors.sort(key=count, reverse=True) in renderer/crypto_card.py). -/
def sortByCountDesc : List (ℕ × ℕ × ℕ × ℕ) → List (ℕ × ℕ × ℕ × ℕ)
  | [] => []
  | e :: rest => insertByCount e (sortByCountDesc rest)

/-- The dominant-color scan of render_crypto_card (renderer/crypto_card.py,
auto-detect branch): sort the (count, r, g, b) palette most- to
least-frequent; return the first vivid color; failing that, the first entry
that is neither near-black nor near-white; failing that, the neutral
fallback (50, 50, 50). -/
def detect_band_color (palette : List (ℕ × ℕ × ℕ × ℕ)) : ℕ × ℕ × ℕ :=
  match (sortByCountDesc palette).find? (fun e => vividColor e.2) with
  | some e => e.2
  | none =>
    match (sortByCountDesc palette).find? (fun e => midBrightness e.2) with
    | some e => e.2
    | none => (50, 50, 50)

/-- The glow intensity scale of render_crypto_card: blur_scale clamped to
[0.3, 2.0]. -/
def glowIntensity (blur_scale : ℚ) : ℚ := max (3/10) (min 2 blur_scale)

/-- One glow layer of the crypto band: pieslice bounding box, fill color,
fill alpha and Gaussian blur radius. -/
structure GlowLayer where
  box : ℤ × ℤ × ℤ × ℤ
  rgb : ℕ × ℕ × ℕ
  alpha : ℤ
  blur : ℕ
deriving DecidableEq

/-- The three glow layers of render_crypto_card (renderer/crypto_card.py):
the band color comes from the manual override when supplied and otherwise
from the dominant-color scan of the canvas palette; the layers share that
color and differ in ellipse box, alpha and blur radius. -/
def cryptoGlowLayers (band_color : Option (ℕ × ℕ × ℕ))
    (canvasPalette : List (ℕ × ℕ × ℕ × ℕ)) (blur_scale : ℚ)
    (canvas_width canvas_height : ℕ) : List GlowLayer :=
  let c := match band_color with
    | some c => c
    | none => detect_band_color canvasPalette
  let smallW := pyInt ((canvas_width : ℚ) * (115/100))
  let smallH := pyInt ((canvas_height : ℚ) * (315/1000))
  let small_box := (pyDiv (canvas_width : ℤ) 2 - pyDiv smallW 2,
                    pyInt ((canvas_height : ℚ) - (smallH : ℚ) * (7/10)),
                    pyDiv (canvas_width : ℤ) 2 + pyDiv smallW 2,
                    pyInt ((canvas_height : ℚ) + (smallH : ℚ) * (13/10)))
  let largeW := pyInt ((canvas_width : ℚ) * (11/10))
  let largeH := pyInt ((canvas_height : ℚ) * (65/100))
  let large_box := (pyDiv (canvas_width : ℤ) 2 - pyDiv largeW 2,
                    pyInt ((canvas_height : ℚ) - (largeH : ℚ) * (1/2)),
                    pyDiv (canvas_width : ℤ) 2 + pyDiv largeW 2,
                    pyInt ((canvas_height : ℚ) + (largeH : ℚ) * (3/2)))
  [⟨small_box, c, pyInt (255 * glowIntensity blur_scale), 25⟩,
   ⟨large_box, c, pyInt (220 * glowIntensity blur_scale), 80⟩,
   ⟨large_box, c, pyInt (240 * glowIntensity blur_scale), 140⟩]

/-- The rendering branch generate_thumbnail (pipeline.py) commits to after
its layout switching. -/
inductive RenderBranch
  | crypto
  | dual
  | defaultPipeline
deriving DecidableEq

/-- The layout dispatch of generate_thumbnail (pipeline.py): crypto when the
configured layout is "crypto"; the dual branch when the layout is "dual"
and at least two characters were loaded, raising ProcessingError inside
that branch when no title image was loaded; every other combination falls
through to the default pipeline. -/
def layoutDispatch (layout : String) (numChars : ℕ) (hasTitleImage : Bool) :
    Except String RenderBranch :=
  if layout = "crypto" then .ok .crypto
  else if layout = "dual" ∧ 2 ≤ numChars then
    if !hasTitleImage then .error "Dual layout requires title_image to be enabled"
    else .ok .dual
  else .ok .defaultPipeline

/-- What the filesystem holds for the provider logo: for each of the two
locations load_provider_logo (loader.py) probes, none when no image file is
found there and some b when one is found, b recording whether Pillow can
decode it. -/
structure LogoFs where
  newFolderImage : Option Bool
  oldPathImage : Option Bool
deriving DecidableEq

/-- load_provider_logo (loader.py): ok none when the logo is disabled or no
file is found anywhere (missing is not fatal), ok (some ()) when a found
file decodes, and error (ProviderLogoError) when a found file fails to
decode. -/
def load_provider_logo (enabled : Bool) (fs : LogoFs) : Except String (Option Unit) :=
  if !enabled then .ok none
  else
    match fs.newFolderImage with
    | some true => .ok (some ())
    | some false => .error "Failed to load provider logo"
    | none =>
      match fs.oldPathImage with
      | none => .ok none
      | some true => .ok (some ())
      | some false => .error "Failed to load provider logo"

/-- The provider text/logo fallback of the default branch of
generate_thumbnail (pipeline.py): with a loaded logo the provider text is
cleared before the text block renders and the logo is drawn afterwards;
without one the provider text is kept and drawn, and no logo is drawn.
Returns (provider text handed to the text block, whether a logo is drawn). -/
def providerFallback (logo : Option Unit) (provider_text : String) : String × Bool :=
  match logo with
  | some _ => ("", true)
  | none => (provider_text, false)

/-- An image for dual-card content cropping: dimensions plus the alpha
channel value at each pixel. -/
structure AlphaImg where
  width : ℕ
  height : ℕ
  alpha : ℕ → ℕ → ℕ

/-- The in-range coordinates of pixels with nonzero alpha, in column-major
scan order. -/
def nonzeroCells (img : AlphaImg) : List (ℕ × ℕ) :=
  (List.range img.width).flatMap (fun x =>
    (List.range img.height).filterMap (fun y =>
      if img.alpha x y ≠ 0 then some (x, y) else none))

/-- Image.getbbox on the alpha channel (modelled from Pillow, which
get_content_bbox delegates to): the smallest (left, upper, right, lower)
box containing every nonzero pixel, right and lower edges exclusive; none
when the channel is entirely zero. -/
def alphaGetbbox (img : AlphaImg) : Option (ℕ × ℕ × ℕ × ℕ) :=
  match nonzeroCells img with
  | [] => none
  | _ :: _ =>
    some (((nonzeroCells img).map Prod.fst).foldl min img.width,
          ((nonzeroCells img).map Prod.snd).foldl min img.height,
          ((nonzeroCells img).map Prod.fst).foldl max 0 + 1,
          ((nonzeroCells img).map Prod.snd).foldl max 0 + 1)

/-- get_content_bbox (renderer/dual_card.py): the alpha bounding box, or the
full image extent (0, 0, width, height) when the image is completely
transparent. -/
def get_content_bbox (img : AlphaImg) : ℕ × ℕ × ℕ × ℕ :=
  match alphaGetbbox img with
  | some bbox => bbox
  | none => (0, 0, img.width, img.height)

/-- The per-character geometry of render_dual_card (renderer/dual_card.py):
crop the character to its content box, then scale the crop to the fixed
52% of canvas height.  Returns the cropped (width, height) and the scaled
(width, height). -/
def dualCardCharSize (img : AlphaImg) : (ℕ × ℕ) × (ℤ × ℤ) :=
  match get_content_bbox img with
  | (l, t, r, b) =>
    ((r - l, b - t),
     (pyInt (((r - l : ℕ) : ℚ) * ((pyInt ((CANVAS_H : ℚ) * (52/100)) : ℚ) / ((b - t : ℕ) : ℚ))),
      pyInt ((CANVAS_H : ℚ) * (52/100))))

/-- A concrete 4x3 opaque base image for the compositing witness. -/
def imgBase : Img := ⟨4, 3, fun _ _ => (10, 20, 30, 255)⟩

/-- A concrete 2x2 translucent overlay image for the compositing witness. -/
def imgOverlay : Img := ⟨2, 2, fun _ _ => (200, 0, 0, 128)⟩

theorem pyInt_eq_floor (q : ℚ) (h : 0 ≤ q) : pyInt q = ⌊q⌋ := if_pos h

theorem pyInt_cast_le (q : ℚ) (h : 0 ≤ q) : (pyInt q : ℚ) ≤ q := by
  rw [pyInt_eq_floor q h]
  exact Int.floor_le q

theorem pyInt_nonneg (q : ℚ) (h : 0 ≤ q) : 0 ≤ pyInt q := by
  rw [pyInt_eq_floor q h]
  exact Int.floor_nonneg.mpr h

/-- C1: for every base image, overlay image and integer offset — fully
negative and out-of-range offsets included — alpha_composite
(src/thumbgen/utils/images.py) is a total function that preserves the base
dimensions, changes pixels only inside the intersection of the translated
overlay rectangle with the base rectangle (hence never outside
[0, width) x [0, height) of the base), and leaves the base unchanged when
that intersection has zero area. -/
theorem c1_composite_bounds_safe (base overlay : Img) (x y i j : ℤ) :
    ((alpha_composite base overlay x y).width = base.width ∧
      (alpha_composite base overlay x y).height = base.height) ∧
    ((alpha_composite base overlay x y).pix i j ≠ base.pix i j →
      0 ≤ i ∧ i < (base.width : ℤ) ∧ 0 ≤ j ∧ j < (base.height : ℤ) ∧
      x ≤ i ∧ i < x + (overlay.width : ℤ) ∧ y ≤ j ∧ j < y + (overlay.height : ℤ)) ∧
    ((min (x + (overlay.width : ℤ)) (base.width : ℤ) ≤ max x 0 ∨
      min (y + (overlay.height : ℤ)) (base.height : ℤ) ≤ max y 0) →
      alpha_composite base overlay x y = base) := by
  by_cases hg : 0 < overlapW base overlay x ∧ 0 < overlapH base overlay y
  · refine ⟨⟨by simp [alpha_composite, hg], by simp [alpha_composite, hg]⟩, ?_, ?_⟩
    · intro hne
      have hpix : (alpha_composite base overlay x y).pix = compositePix base overlay x y := by
        simp [alpha_composite, hg]
      rw [hpix] at hne
      by_cases hc : max 0 x ≤ i ∧ i < max 0 x + overlapW base overlay x ∧
          max 0 y ≤ j ∧ j < max 0 y + overlapH base overlay y
      · obtain ⟨h1, h2, h3, h4⟩ := hc
        obtain ⟨hw, hh⟩ := hg
        simp only [overlapW, overlapH] at h2 h4 hw hh
        omega
      · rw [compositePix, if_neg hc] at hne
        exact absurd rfl hne
    · intro hz
      exfalso
      obtain ⟨hw, hh⟩ := hg
      simp only [overlapW, overlapH] at hw hh
      omega
  · have he : alpha_composite base overlay x y = base := by
      simp [alpha_composite, hg]
    exact ⟨⟨by rw [he], by rw [he]⟩,
      fun hne => absurd rfl (by rw [he] at hne; exact hne),
      fun _ => he⟩

/-- Witness for C1 at a concrete fully negative offset: the intersection is
empty and the composite call leaves the base image untouched. -/
theorem c1_composite_bounds_safe_witness :
    alpha_composite imgBase imgOverlay (-5) (-7) = imgBase :=
  (c1_composite_bounds_safe imgBase imgOverlay (-5) (-7) 0 0).2.2
    (Or.inl (by norm_num [imgBase, imgOverlay]))

/-- C4: for every background of positive dimensions, render_background
(src/thumbgen/renderer/background.py) outputs exactly the 440x590 canvas;
the source crop window it resizes onto the canvas has width 440/s and
height 590/s for s the larger of the width-fit and height-fit scale factors
(uniform cover scaling), is horizontally centered, starts at the top of the
source (vertical anchor 0.0), and lies entirely inside the source. -/
theorem c4_background_cover_fit (srcW srcH : ℕ) (hw : 0 < srcW) (hh : 0 < srcH) :
    (render_background srcW srcH).1 = (440, 590) ∧
    (render_background srcW srcH).2 =
      (((srcW : ℚ) - 440 / coverScale srcW srcH) / 2, 0,
        440 / coverScale srcW srcH, 590 / coverScale srcW srcH) ∧
    0 ≤ ((srcW : ℚ) - 440 / coverScale srcW srcH) / 2 ∧
    ((srcW : ℚ) - 440 / coverScale srcW srcH) / 2 + 440 / coverScale srcW srcH ≤ srcW ∧
    (590 : ℚ) / coverScale srcW srcH ≤ srcH := by
  have hwq : (0 : ℚ) < srcW := by exact_mod_cast hw
  have hhq : (0 : ℚ) < srcH := by exact_mod_cast hh
  have hfit : render_background srcW srcH =
      ((440, 590), fitCropBox srcW srcH 440 590 (1/2) 0) := rfl
  rw [hfit]
  refine ⟨rfl, ?_⟩
  by_cases hcase : ((440 : ℚ) / 590 ≤ (srcW : ℚ) / srcH)
  · have hc2 : (440 : ℚ) * srcH ≤ 590 * srcW := by
      rw [div_le_div_iff (by norm_num) hhq] at hcase
      linarith
    have hmax : coverScale srcW srcH = 590 / srcH := by
      simp only [coverScale, CANVAS_W, CANVAS_H, Nat.cast_ofNat]
      exact max_eq_right (by rw [div_le_div_iff hwq hhq]; linarith)
    have hbox : fitCropBox srcW srcH 440 590 (1/2) 0 =
        (((srcW : ℚ) - (440 : ℚ) / 590 * srcH) * (1/2), 0,
          (440 : ℚ) / 590 * srcH, (srcH : ℚ)) := by
      simp only [fitCropBox, Nat.cast_ofNat, if_pos hcase]
      norm_num
    rw [hbox, hmax]
    have hcw : (440 : ℚ) / (590 / srcH) = 440 / 590 * srcH := by
      field_simp
    have hch : (590 : ℚ) / (590 / srcH) = srcH := by
      field_simp
    rw [hcw, hch]
    refine ⟨by ring_nf, ?_, ?_, le_refl _⟩
    · have : (440 : ℚ) / 590 * srcH ≤ srcW := by
        rw [div_mul_eq_mul_div, div_le_iff (by norm_num)]
        linarith
      linarith
    · have : (440 : ℚ) / 590 * srcH ≤ srcW := by
        rw [div_mul_eq_mul_div, div_le_iff (by norm_num)]
        linarith
      linarith
  · have hc2 : (590 : ℚ) * srcW ≤ 440 * srcH := by
      push_neg at hcase
      rw [div_lt_div_iff hhq (by norm_num)] at hcase
      linarith
    have hmax : coverScale srcW srcH = 440 / srcW := by
      simp only [coverScale, CANVAS_W, CANVAS_H, Nat.cast_ofNat]
      exact max_eq_left (by rw [div_le_div_iff hhq hwq]; linarith)
    have hbox : fitCropBox srcW srcH 440 590 (1/2) 0 =
        (0, 0, (srcW : ℚ), (srcW : ℚ) / ((440 : ℚ) / 590)) := by
      simp only [fitCropBox, Nat.cast_ofNat, if_neg hcase]
      norm_num
    rw [hbox, hmax]
    have hcw : (440 : ℚ) / (440 / srcW) = srcW := by
      field_simp
    have hch : (590 : ℚ) / (440 / srcW) = (srcW : ℚ) / ((440 : ℚ) / 590) := by
      field_simp
      ring
    rw [hcw, hch]
    have hchs : (srcW : ℚ) / ((440 : ℚ) / 590) ≤ srcH := by
      rw [div_le_iff (by norm_num)]
      linarith
    refine ⟨by norm_num, by norm_num, by norm_num, hchs⟩

/-- Witness for C4: a 1920x1080 landscape background is fit into an output
of exactly 440x590. -/
theorem c4_background_cover_fit_witness :
    (render_background 1920 1080).1 = (440, 590) :=
  (c4_background_cover_fit 1920 1080 (by norm_num) (by norm_num)).1

theorem find_eq_some_split {α : Type} (p : α → Bool) (l : List α) (a : α)
    (h : l.find? p = some a) :
    ∃ l1 l2, l = l1 ++ a :: l2 ∧ p a = true ∧ ∀ x ∈ l1, p x = false := by
  induction l with
  | nil => simp at h
  | cons b t ih =>
    by_cases hb : p b = true
    · rw [List.find?_cons_of_pos _ hb] at h
      injection h with h
      subst h
      exact ⟨[], t, rfl, hb, by simp⟩
    · have hb2 : p b = false := by simpa using hb
      rw [List.find?_cons_of_neg _ hb] at h
      obtain ⟨l1, l2, heq, hpa, hall⟩ := ih h
      subst heq
      refine ⟨b :: l1, l2, rfl, hpa, ?_⟩
      intro x hx
      rcases List.mem_cons.mp hx with rfl | hx2
      · exact hb2
      · exact hall x hx2

theorem mem_insertByCount (x e : ℕ × ℕ × ℕ × ℕ) (l : List (ℕ × ℕ × ℕ × ℕ)) :
    x ∈ insertByCount e l ↔ x = e ∨ x ∈ l := by
  induction l with
  | nil => simp [insertByCount]
  | cons f t ih =>
    by_cases hf : f.1 ≤ e.1
    · simp [insertByCount, hf]
    · simp [insertByCount, hf, ih]
      tauto

theorem mem_sortByCountDesc (x : ℕ × ℕ × ℕ × ℕ) (l : List (ℕ × ℕ × ℕ × ℕ)) :
    x ∈ sortByCountDesc l ↔ x ∈ l := by
  induction l with
  | nil => simp [sortByCountDesc]
  | cons e t ih => simp [sortByCountDesc, mem_insertByCount, ih]

/-- C6: the dominant-color scan of the crypto band
(src/thumbgen/renderer/crypto_card.py) walks the palette from most- to
least-frequent and returns the first color with channel variance above 30
and brightness above 100 whenever one exists; when none qualifies it
returns the first entry of the frequency-sorted palette that is neither
near-black (r+g+b ≤ 30) nor near-white (r+g+b ≥ 700); and when that also
fails it returns the fixed neutral fallback (50, 50, 50). -/
theorem c6_dominant_color_scan (palette : List (ℕ × ℕ × ℕ × ℕ)) :
    (∃ l1 e l2, sortByCountDesc palette = l1 ++ e :: l2 ∧
        detect_band_color palette = e.2 ∧ vividColor e.2 = true ∧
        (∀ f ∈ l1, vividColor f.2 = false)) ∨
    ((∀ e ∈ palette, vividColor e.2 = false) ∧
      ∃ l1 e l2, sortByCountDesc palette = l1 ++ e :: l2 ∧
        detect_band_color palette = e.2 ∧ midBrightness e.2 = true ∧
        (∀ f ∈ l1, midBrightness f.2 = false)) ∨
    ((∀ e ∈ palette, vividColor e.2 = false ∧ midBrightness e.2 = false) ∧
      detect_band_color palette = (50, 50, 50)) := by
  cases h1 : (sortByCountDesc palette).find? (fun e => vividColor e.2) with
  | some e =>
    left
    obtain ⟨l1, l2, heq, hp, hall⟩ := find_eq_some_split _ _ _ h1
    exact ⟨l1, e, l2, heq, by simp only [detect_band_color, h1], hp,
      fun f hf => hall f hf⟩
  | none =>
    have hnone1 : ∀ e ∈ palette, vividColor e.2 = false := by
      intro e he
      have := List.find?_eq_none.mp h1 e ((mem_sortByCountDesc _ _).mpr he)
      simpa using this
    cases h2 : (sortByCountDesc palette).find? (fun e => midBrightness e.2) with
    | some e =>
      right; left
      obtain ⟨l1, l2, heq, hp, hall⟩ := find_eq_some_split _ _ _ h2
      exact ⟨hnone1, l1, e, l2, heq, by simp only [detect_band_color, h1, h2], hp,
        fun f hf => hall f hf⟩
    | none =>
      right; right
      refine ⟨?_, by simp only [detect_band_color, h1, h2]⟩
      intro e he
      refine ⟨hnone1 e he, ?_⟩
      have := List.find?_eq_none.mp h2 e ((mem_sortByCountDesc _ _).mpr he)
      simpa using this

/-- C7: with a manually supplied band color the three glow layers of the
crypto card (src/thumbgen/renderer/crypto_card.py) all carry exactly that
RGB triple; the layers are independent of the canvas palette, so no
dominant-color detection influences them; and they differ only in their
per-layer alpha (255, 220 and 240 scaled by the clamped intensity) and
blur. -/
theorem c7_manual_band_color (c : ℕ × ℕ × ℕ) (pal1 pal2 : List (ℕ × ℕ × ℕ × ℕ))
    (bs : ℚ) (cw ch : ℕ) :
    (cryptoGlowLayers (some c) pal1 bs cw ch).map GlowLayer.rgb = [c, c, c] ∧
    cryptoGlowLayers (some c) pal1 bs cw ch = cryptoGlowLayers (some c) pal2 bs cw ch ∧
    (cryptoGlowLayers (some c) pal1 bs cw ch).map GlowLayer.alpha =
      [pyInt (255 * glowIntensity bs), pyInt (220 * glowIntensity bs),
        pyInt (240 * glowIntensity bs)] :=
  ⟨rfl, rfl, rfl⟩

/-- C8 counterexample: requesting the dual layout with only one character
(title image present) does not raise — generate_thumbnail
(src/thumbgen/pipeline.py) silently falls through to the default pipeline
instead of reporting an invalid layout configuration. -/
theorem c8_counterexample :
    layoutDispatch "dual" 1 true = Except.ok RenderBranch.defaultPipeline := by
  rfl

/-- C8 (amended): requesting the dual layout with at least two characters
and no title image raises exactly one error instead of returning an image;
with at least two characters and a title image the dual branch runs; with
fewer than two characters the render does not raise and silently falls
through to the default pipeline. -/
theorem c8_dual_dispatch_amended (n : ℕ) (ti : Bool) :
    (2 ≤ n → ti = false → layoutDispatch "dual" n ti =
      Except.error "Dual layout requires title_image to be enabled") ∧
    (2 ≤ n → ti = true → layoutDispatch "dual" n ti = Except.ok RenderBranch.dual) ∧
    (n < 2 → layoutDispatch "dual" n ti = Except.ok RenderBranch.defaultPipeline) := by
  refine ⟨?_, ?_, ?_⟩
  · intro h2 hti
    subst hti
    simp [layoutDispatch, h2]
  · intro h2 hti
    subst hti
    simp [layoutDispatch, h2]
  · intro hlt
    have hno : ¬ 2 ≤ n := by omega
    simp [layoutDispatch, hno]

/-- Witness for C8 (amended): two characters, no title image, dual mode —
the dispatch reports the invalid configuration as an error. -/
theorem c8_dual_dispatch_amended_witness :
    layoutDispatch "dual" 2 false =
      Except.error "Dual layout requires title_image to be enabled" :=
  (c8_dual_dispatch_amended 2 false).1 (by norm_num) rfl

/-- C9 counterexample: with the provider logo enabled and a logo file found
in the Provider Logo folder that fails to decode, load_provider_logo
(src/thumbgen/loader.py) raises ProviderLogoError — a failed-to-load logo
is fatal to the render, contrary to the claim. -/
theorem c9_counterexample :
    load_provider_logo true ⟨some false, none⟩ =
      Except.error "Failed to load provider logo" := rfl

/-- C9 (amended): a missing provider logo (no file found in either probed
location) is never fatal — load_provider_logo returns ok none and the
pipeline keeps the provider text, so the render falls back to the text
label; a disabled logo behaves the same; but a found logo file that fails
to decode raises ProviderLogoError and so aborts the render. -/
theorem c9_logo_missing_fallback (fs : LogoFs) (t : String) :
    (fs.newFolderImage = none → fs.oldPathImage = none →
      load_provider_logo true fs = Except.ok none ∧
      providerFallback none t = (t, false)) ∧
    (load_provider_logo false fs = Except.ok none) ∧
    (fs.newFolderImage = some false →
      load_provider_logo true fs = Except.error "Failed to load provider logo") ∧
    (fs.newFolderImage = none → fs.oldPathImage = some false →
      load_provider_logo true fs = Except.error "Failed to load provider logo") := by
  obtain ⟨nf, op⟩ := fs
  refine ⟨?_, rfl, ?_, ?_⟩
  · rintro h1 h2
    simp only at h1 h2
    subst h1
    subst h2
    exact ⟨rfl, rfl⟩
  · rintro h1
    simp only at h1
    subst h1
    rfl
  · rintro h1 h2
    simp only at h1 h2
    subst h1
    subst h2
    rfl

/-- Witness for C9 (amended): logo enabled but missing from both locations —
loading succeeds with none and the provider text is kept for rendering. -/
theorem c9_logo_missing_fallback_witness :
    load_provider_logo true ⟨none, none⟩ = Except.ok none ∧
    providerFallback none "Pragmatic Play" = ("Pragmatic Play", false) :=
  (c9_logo_missing_fallback ⟨none, none⟩ "Pragmatic Play").1 rfl rfl

theorem foldl_min_le_init (l : List ℕ) (init : ℕ) : l.foldl min init ≤ init := by
  induction l generalizing init with
  | nil => simp
  | cons a t ih => exact le_trans (ih (min init a)) (min_le_left _ _)

theorem foldl_min_le_of_mem (l : List ℕ) (init x : ℕ) (hx : x ∈ l) :
    l.foldl min init ≤ x := by
  induction l generalizing init with
  | nil => simp at hx
  | cons a t ih =>
    rcases List.mem_cons.mp hx with rfl | hx2
    · exact le_trans (foldl_min_le_init t (min init x)) (min_le_right _ _)
    · exact ih (min init a) hx2

theorem init_le_foldl_max (l : List ℕ) (init : ℕ) : init ≤ l.foldl max init := by
  induction l generalizing init with
  | nil => simp
  | cons a t ih => exact le_trans (le_max_left _ _) (ih (max init a))

theorem le_foldl_max_of_mem (l : List ℕ) (init x : ℕ) (hx : x ∈ l) :
    x ≤ l.foldl max init := by
  induction l generalizing init with
  | nil => simp at hx
  | cons a t ih =>
    rcases List.mem_cons.mp hx with rfl | hx2
    · exact le_trans (le_max_right _ _) (init_le_foldl_max t (max init x))
    · exact ih (max init a) hx2

/-- C10: trimming a dual-card character to its content bounding box
(src/thumbgen/renderer/dual_card.py) is total: on a fully transparent
character get_content_bbox returns the full image extent (0, 0, width,
height) instead of failing, and on every character of positive dimensions
the returned box has strictly positive area, so render_dual_card never
crops to a zero-area image and its scaling (to the fixed 52% of canvas
height, 306 pixels) divides by a positive crop height. -/
theorem c10_content_bbox_total (img : AlphaImg) :
    ((∀ x y, img.alpha x y = 0) →
      get_content_bbox img = (0, 0, img.width, img.height)) ∧
    (0 < img.width → 0 < img.height →
      ∃ l t r b, get_content_bbox img = (l, t, r, b) ∧ l < r ∧ t < b ∧
        (dualCardCharSize img).1 = (r - l, b - t) ∧ 0 < (dualCardCharSize img).1.2 ∧
        (dualCardCharSize img).2.2 = 306) := by
  have h306 : pyInt ((CANVAS_H : ℚ) * (52/100)) = 306 := by
    norm_num [pyInt, CANVAS_H, Int.floor_eq_iff]
  constructor
  · intro hz
    have hcells : nonzeroCells img = [] := by
      simp [nonzeroCells, hz]
    simp only [get_content_bbox, alphaGetbbox, hcells]
  · intro hwpos hhpos
    cases hcells : nonzeroCells img with
    | nil =>
      refine ⟨0, 0, img.width, img.height, ?_, hwpos, hhpos, ?_, ?_, ?_⟩
      · simp only [get_content_bbox, alphaGetbbox, hcells]
      · simp only [dualCardCharSize, get_content_bbox, alphaGetbbox, hcells]
      · simp only [dualCardCharSize, get_content_bbox, alphaGetbbox, hcells]
        omega
      · simp only [dualCardCharSize, get_content_bbox, alphaGetbbox, hcells, h306]
    | cons c cs =>
      have hbb : get_content_bbox img =
          (((nonzeroCells img).map Prod.fst).foldl min img.width,
           ((nonzeroCells img).map Prod.snd).foldl min img.height,
           ((nonzeroCells img).map Prod.fst).foldl max 0 + 1,
           ((nonzeroCells img).map Prod.snd).foldl max 0 + 1) := by
        rw [get_content_bbox, alphaGetbbox]
        rw [hcells]
      have hx : c.1 ∈ (nonzeroCells img).map Prod.fst := by
        rw [hcells]
        exact List.mem_map_of_mem _ (List.mem_cons_self c cs)
      have hy : c.2 ∈ (nonzeroCells img).map Prod.snd := by
        rw [hcells]
        exact List.mem_map_of_mem _ (List.mem_cons_self c cs)
      have hlr : ((nonzeroCells img).map Prod.fst).foldl min img.width <
          ((nonzeroCells img).map Prod.fst).foldl max 0 + 1 := by
        have h1 := foldl_min_le_of_mem _ img.width c.1 hx
        have h2 := le_foldl_max_of_mem _ 0 c.1 hx
        omega
      have htb : ((nonzeroCells img).map Prod.snd).foldl min img.height <
          ((nonzeroCells img).map Prod.snd).foldl max 0 + 1 := by
        have h1 := foldl_min_le_of_mem _ img.height c.2 hy
        have h2 := le_foldl_max_of_mem _ 0 c.2 hy
        omega
      refine ⟨_, _, _, _, hbb, hlr, htb, ?_, ?_, ?_⟩
      · simp only [dualCardCharSize, hbb]
      · simp only [dualCardCharSize, hbb]
        omega
      · simp only [dualCardCharSize, hbb, h306]

/-- Witness for C10: a concrete 2x2 fully transparent character — the
content box is the full extent (0, 0, 2, 2), so the dual-card crop has
positive area. -/
theorem c10_content_bbox_total_witness :
    get_content_bbox ⟨2, 2, fun _ _ => 0⟩ = (0, 0, 2, 2) :=
  (c10_content_bbox_total ⟨2, 2, fun _ _ => 0⟩).1 (fun _ _ => rfl)

/-- C3 counterexample: at concrete character dimensions the pyramid paint
sequence of generate_thumbnail (src/thumbgen/pipeline.py) composites the
middle asset first and its blurred glow second — the glow is painted after
(in front of) the middle asset, not behind it as the claim states. -/
theorem c3_counterexample :
    (pyramidPaintOps ⟨100, 200⟩ ⟨300, 400⟩ ⟨120, 240⟩).map PaintOp.kind =
      [PaintKind.middleAsset, PaintKind.middleGlow,
        PaintKind.leftAsset, PaintKind.rightAsset] := rfl

/-- C3 (amended): with three characters in default mode the middle asset is
scaled to int(0.95 * canvas height) = 560 pixels high (within 1 pixel of
95% of the 590-pixel canvas), horizontally centered and vertically centered
at int(0.38 * canvas height) = 224; its blurred alpha-dimmed glow has the
same size and is offset by (-25, -25) but is composited after (in front of)
the asset, not behind it; the first and third assets are scaled to
int(0.42 * canvas height) = 247 pixels high (within 1 pixel of 42%),
centered vertically at 342 (top y 219), and painted last, in front of the
middle element. -/
theorem c3_pyramid_amended (c0 c1 c2 : Dim) :
    ∃ op0 op1 op2 op3, pyramidPaintOps c0 c1 c2 = [op0, op1, op2, op3] ∧
      op0.kind = PaintKind.middleAsset ∧ op1.kind = PaintKind.middleGlow ∧
      op2.kind = PaintKind.leftAsset ∧ op3.kind = PaintKind.rightAsset ∧
      op0.h = 560 ∧ |(560 : ℚ) - (95/100) * (CANVAS_H : ℚ)| ≤ 1 ∧
      op0.x = pyDiv ((CANVAS_W : ℤ) - op0.w) 2 ∧
      op0.y = 224 - pyDiv op0.h 2 ∧ pyInt ((CANVAS_H : ℚ) * (38/100)) = 224 ∧
      op1.w = op0.w ∧ op1.h = op0.h ∧ op1.x = op0.x - 25 ∧ op1.y = op0.y - 25 ∧
      op2.h = 247 ∧ op3.h = 247 ∧ |(247 : ℚ) - (42/100) * (CANVAS_H : ℚ)| ≤ 1 ∧
      op2.y = 219 ∧ op3.y = 219 := by
  have h95 : pyInt ((CANVAS_H : ℚ) * (95/100)) = 560 := by
    norm_num [pyInt, CANVAS_H, Int.floor_eq_iff]
  have h38 : pyInt ((CANVAS_H : ℚ) * (38/100)) = 224 := by
    norm_num [pyInt, CANVAS_H, Int.floor_eq_iff]
  have h42 : pyInt ((CANVAS_H : ℚ) * (42/100)) = 247 := by
    norm_num [pyInt, CANVAS_H, Int.floor_eq_iff]
  have h58 : pyInt ((CANVAS_H : ℚ) * (58/100)) = 342 := by
    norm_num [pyInt, CANVAS_H, Int.floor_eq_iff]
  refine ⟨_, _, _, _, rfl, rfl, rfl, rfl, rfl, h95, ?_, rfl, ?_, h38, rfl, rfl, rfl, rfl,
    h42, h42, ?_, ?_, ?_⟩
  · rw [abs_le]
    constructor <;> norm_num [CANVAS_H]
  · show pyInt ((CANVAS_H : ℚ) * (38/100)) - pyDiv (pyInt ((CANVAS_H : ℚ) * (95/100))) 2 =
      224 - pyDiv (pyInt ((CANVAS_H : ℚ) * (95/100))) 2
    rw [h38]
  · rw [abs_le]
    constructor <;> norm_num [CANVAS_H]
  · show pyInt ((CANVAS_H : ℚ) * (58/100)) - pyDiv (pyInt ((CANVAS_H : ℚ) * (42/100))) 2 = 219
    rw [h58, h42]
    decide
  · show pyInt ((CANVAS_H : ℚ) * (58/100)) - pyDiv (pyInt ((CANVAS_H : ℚ) * (42/100))) 2 = 219
    rw [h58, h42]
    decide

theorem totalWidthOf_eq (ss : List (ℤ × ℤ)) (spacing : ℤ) (h : ss ≠ []) :
    totalWidthOf ss spacing ss.length =
      (ss.map Prod.fst).sum + spacing * ((ss.length : ℤ) - 1) := by
  rw [totalWidthOf]
  by_cases h1 : 1 < ss.length
  · rw [if_pos h1]
  · rw [if_neg h1]
    cases ss with
    | nil => exact absurd rfl h
    | cons a t =>
      have ht0 : t.length = 0 := by
        simp only [List.length_cons] at h1
        omega
      simp [ht0]

theorem placeChars_mem_bottom (bottom spacing : ℤ) (ss : List (ℤ × ℤ)) (cur : ℤ) :
    ∀ p ∈ placeChars bottom spacing ss cur, p.y + p.h = bottom := by
  induction ss generalizing cur with
  | nil =>
    intro p hp
    simp [placeChars] at hp
  | cons a t ih =>
    intro p hp
    obtain ⟨w, h⟩ := a
    rw [placeChars] at hp
    rcases List.mem_cons.mp hp with rfl | hp2
    · show bottom - h + h = bottom
      omega
    · exact ih (cur + w + spacing) p hp2

theorem lastEdge_cons_cons (p q : Placed) (ps : List Placed) :
    lastEdge (p :: q :: ps) = lastEdge (q :: ps) := by
  simp [lastEdge, List.getLast?_cons_cons]

theorem placeChars_lastEdge (bottom spacing : ℤ) (ss : List (ℤ × ℤ)) (cur : ℤ)
    (hne : ss ≠ []) :
    lastEdge (placeChars bottom spacing ss cur) =
      cur + (ss.map Prod.fst).sum + spacing * ((ss.length : ℤ) - 1) := by
  induction ss generalizing cur with
  | nil => exact absurd rfl hne
  | cons a t ih =>
    obtain ⟨w, h⟩ := a
    cases t with
    | nil => simp [placeChars, lastEdge]
    | cons b t2 =>
      obtain ⟨bw, bh⟩ := b
      have hstep : placeChars bottom spacing ((w, h) :: (bw, bh) :: t2) cur =
          (⟨w, h, cur, bottom - h⟩ : Placed) ::
            placeChars bottom spacing ((bw, bh) :: t2) (cur + w + spacing) := rfl
      have hq : placeChars bottom spacing ((bw, bh) :: t2) (cur + w + spacing) =
          (⟨bw, bh, cur + w + spacing, bottom - bh⟩ : Placed) ::
            placeChars bottom spacing t2 (cur + w + spacing + bw + spacing) := rfl
      rw [hstep, hq, lastEdge_cons_cons, ← hq]
      rw [ih (cur + w + spacing) (by simp)]
      simp only [List.map_cons, List.sum_cons, List.length_cons]
      push_cast
      ring

theorem scaledPass1_nonneg (chars : List Dim) (hr : ℚ) (ht : 0 ≤ charTargetSize hr) :
    ∀ q ∈ scaledPass1 chars hr, 0 ≤ q.1 ∧ 0 ≤ q.2 := by
  intro q hq
  simp only [scaledPass1, List.mem_map] at hq
  obtain ⟨d, hd2, rfl⟩ := hq
  have htq : (0 : ℚ) ≤ (charTargetSize hr : ℚ) := by exact_mod_cast ht
  simp only [scaleToTarget]
  constructor
  · exact pyInt_nonneg _ (mul_nonneg (by positivity) (div_nonneg htq (by positivity)))
  · exact pyInt_nonneg _ (mul_nonneg (by positivity) (div_nonneg htq (by positivity)))

theorem sum_map_pyInt_mul_le (l : List (ℤ × ℤ)) (s : ℚ) (hs : 0 ≤ s)
    (h : ∀ q ∈ l, 0 ≤ q.1) :
    (((l.map (fun q => pyInt ((q.1 : ℚ) * s))).sum : ℚ)) ≤ ((l.map Prod.fst).sum : ℚ) * s := by
  induction l with
  | nil => simp
  | cons a t ih =>
    have ha : (0 : ℚ) ≤ (a.1 : ℚ) * s :=
      mul_nonneg (by exact_mod_cast h a (List.mem_cons_self a t)) hs
    have h1 := pyInt_cast_le _ ha
    have h2 := ih (fun q hq => h q (List.mem_cons_of_mem a hq))
    simp only [List.map_cons, List.sum_cons]
    push_cast
    push_cast at h2
    rw [add_mul]
    linarith

theorem downscaled_total_le (chars : List Dim) (hr : ℚ) (ht : 0 ≤ charTargetSize hr)
    (hov : 396 < initialTotalWidth chars hr) :
    totalWidthOf (finalScaled chars hr) (finalSpacing chars hr) chars.length ≤ 396 := by
  have hnum : (CANVAS_W : ℚ) * charMaxWidthRatio = 396 := by
    norm_num [CANVAS_W, charMaxWidthRatio]
  have hT0q : (396 : ℚ) < (initialTotalWidth chars hr : ℚ) := by exact_mod_cast hov
  have hcond : (CANVAS_W : ℚ) * charMaxWidthRatio < (initialTotalWidth chars hr : ℚ) := by
    rw [hnum]
    exact hT0q
  have hT0pos : (0 : ℚ) < (initialTotalWidth chars hr : ℚ) := by linarith
  have hsge : 0 ≤ groupDownScale chars hr := by
    rw [groupDownScale, hnum]
    positivity
  have hprod : (initialTotalWidth chars hr : ℚ) * groupDownScale chars hr = 396 := by
    rw [groupDownScale, hnum]
    field_simp
  have hfs : finalScaled chars hr = (scaledPass1 chars hr).map (fun p =>
      (pyInt ((p.1 : ℚ) * groupDownScale chars hr),
       pyInt ((p.2 : ℚ) * groupDownScale chars hr))) := by
    rw [finalScaled, if_pos hcond]
  have hspeq : finalSpacing chars hr = pyInt ((charSpacing0 : ℚ) * groupDownScale chars hr) := by
    rw [finalSpacing, if_pos hcond]
  have hw1 : (finalScaled chars hr).map Prod.fst =
      (scaledPass1 chars hr).map (fun q => pyInt ((q.1 : ℚ) * groupDownScale chars hr)) := by
    rw [hfs, List.map_map]
    rfl
  have hsum := sum_map_pyInt_mul_le (scaledPass1 chars hr) (groupDownScale chars hr) hsge
    (fun q hq => (scaledPass1_nonneg chars hr ht q hq).1)
  have hsp22 : charSpacing0 = 22 := by
    norm_num [charSpacing0, charSpacingRatio, CANVAS_W, pyInt, Int.floor_eq_iff]
  have hsple : ((finalSpacing chars hr : ℤ) : ℚ) ≤ 22 * groupDownScale chars hr := by
    rw [hspeq, hsp22]
    have hb := pyInt_cast_le (((22 : ℤ) : ℚ) * groupDownScale chars hr)
      (mul_nonneg (by norm_num) hsge)
    push_cast at hb ⊢
    linarith
  by_cases h1 : 1 < chars.length
  · have hQ : ((totalWidthOf (finalScaled chars hr) (finalSpacing chars hr)
        chars.length : ℤ) : ℚ) =
        (((scaledPass1 chars hr).map
          (fun q => pyInt ((q.1 : ℚ) * groupDownScale chars hr))).sum : ℚ) +
          ((finalSpacing chars hr : ℤ) : ℚ) * ((chars.length : ℚ) - 1) := by
      rw [totalWidthOf, hw1, if_pos h1]
      push_cast
      ring
    have hc1 : (0 : ℚ) ≤ (chars.length : ℚ) - 1 := by
      have hge : (1 : ℚ) ≤ (chars.length : ℚ) := by exact_mod_cast h1.le
      linarith
    have hstep2 : ((finalSpacing chars hr : ℤ) : ℚ) * ((chars.length : ℚ) - 1) ≤
        (22 * groupDownScale chars hr) * ((chars.length : ℚ) - 1) :=
      mul_le_mul_of_nonneg_right hsple hc1
    have hT0eq : (initialTotalWidth chars hr : ℚ) =
        (((scaledPass1 chars hr).map Prod.fst).sum : ℚ) +
          22 * ((chars.length : ℚ) - 1) := by
      rw [initialTotalWidth, totalWidthOf, if_pos h1, hsp22]
      push_cast
      ring
    have hkey : ((totalWidthOf (finalScaled chars hr) (finalSpacing chars hr)
        chars.length : ℤ) : ℚ) ≤ 396 := by
      rw [hQ]
      calc (((scaledPass1 chars hr).map
              (fun q => pyInt ((q.1 : ℚ) * groupDownScale chars hr))).sum : ℚ) +
            ((finalSpacing chars hr : ℤ) : ℚ) * ((chars.length : ℚ) - 1)
          ≤ (((scaledPass1 chars hr).map Prod.fst).sum : ℚ) * groupDownScale chars hr +
            (22 * groupDownScale chars hr) * ((chars.length : ℚ) - 1) := by
            linarith
        _ = ((((scaledPass1 chars hr).map Prod.fst).sum : ℚ) +
              22 * ((chars.length : ℚ) - 1)) * groupDownScale chars hr := by ring
        _ = (initialTotalWidth chars hr : ℚ) * groupDownScale chars hr := by rw [hT0eq]
        _ = 396 := hprod
    exact_mod_cast hkey
  · have hQ : ((totalWidthOf (finalScaled chars hr) (finalSpacing chars hr)
        chars.length : ℤ) : ℚ) =
        (((scaledPass1 chars hr).map
          (fun q => pyInt ((q.1 : ℚ) * groupDownScale chars hr))).sum : ℚ) := by
      rw [totalWidthOf, hw1, if_neg h1]
      push_cast
      ring
    have hT0eq : (initialTotalWidth chars hr : ℚ) =
        (((scaledPass1 chars hr).map Prod.fst).sum : ℚ) := by
      rw [initialTotalWidth, totalWidthOf, if_neg h1]
      push_cast
      ring
    have hkey : ((totalWidthOf (finalScaled chars hr) (finalSpacing chars hr)
        chars.length : ℤ) : ℚ) ≤ 396 := by
      rw [hQ]
      calc (((scaledPass1 chars hr).map
              (fun q => pyInt ((q.1 : ℚ) * groupDownScale chars hr))).sum : ℚ)
          ≤ (((scaledPass1 chars hr).map Prod.fst).sum : ℚ) * groupDownScale chars hr := hsum
        _ = (initialTotalWidth chars hr : ℚ) * groupDownScale chars hr := by rw [hT0eq]
        _ = 396 := hprod
    exact_mod_cast hkey

/-- C5: in the side-by-side placement (src/thumbgen/renderer/character.py),
every character is bottom-anchored at the shared bottom edge
int(0.95 * canvas height) = 560; whenever the total group width including
spacing exceeds 0.90 of the canvas width (396 pixels), all characters and
the spacing are rescaled by the one shared factor groupDownScale; the
resulting total group width never exceeds 396 pixels; and the group starts
at the centering offset (canvas width - total width) // 2 and spans exactly
the total width. -/
theorem c5_side_by_side_group_fit (chars : List Dim) (hr : ℚ)
    (hne : chars ≠ []) (ht : 0 ≤ charTargetSize hr) :
    (pyInt ((CANVAS_H : ℚ) * (95/100)) = 560 ∧
      ∀ p ∈ render_characters chars hr, p.y + p.h = 560) ∧
    (396 < initialTotalWidth chars hr →
      finalScaled chars hr = (scaledPass1 chars hr).map (fun q =>
        (pyInt ((q.1 : ℚ) * groupDownScale chars hr),
         pyInt ((q.2 : ℚ) * groupDownScale chars hr))) ∧
      finalSpacing chars hr = pyInt ((charSpacing0 : ℚ) * groupDownScale chars hr)) ∧
    totalWidthOf (finalScaled chars hr) (finalSpacing chars hr) chars.length ≤ 396 ∧
    (∃ p0 rest, render_characters chars hr = p0 :: rest ∧
      p0.x = pyDiv ((CANVAS_W : ℤ) -
        totalWidthOf (finalScaled chars hr) (finalSpacing chars hr) chars.length) 2 ∧
      lastEdge (render_characters chars hr) = p0.x +
        totalWidthOf (finalScaled chars hr) (finalSpacing chars hr) chars.length) := by
  have hnum : (CANVAS_W : ℚ) * charMaxWidthRatio = 396 := by
    norm_num [CANVAS_W, charMaxWidthRatio]
  have h560 : pyInt ((CANVAS_H : ℚ) * (95/100)) = 560 := by
    norm_num [pyInt, CANVAS_H, Int.floor_eq_iff]
  have hie : chars.isEmpty = false := by
    cases chars with
    | nil => exact absurd rfl hne
    | cons a t => rfl
  have hrc : render_characters chars hr =
      placeChars 560 (finalSpacing chars hr) (finalScaled chars hr)
        (pyDiv ((CANVAS_W : ℤ) -
          totalWidthOf (finalScaled chars hr) (finalSpacing chars hr) chars.length) 2) := by
    rw [render_characters, hie]
    rw [if_neg Bool.false_ne_true]
    rw [h560]
  have hlen : (finalScaled chars hr).length = chars.length := by
    rw [finalScaled]
    split
    · simp [scaledPass1]
    · simp [scaledPass1]
  have hfs_ne : finalScaled chars hr ≠ [] := by
    intro h0
    rw [h0] at hlen
    cases chars with
    | nil => exact hne rfl
    | cons a t => simp at hlen
  refine ⟨⟨h560, ?_⟩, ?_, ?_, ?_⟩
  · intro p hp
    rw [hrc] at hp
    exact placeChars_mem_bottom _ _ _ _ p hp
  · intro hov
    have hcond : (CANVAS_W : ℚ) * charMaxWidthRatio < (initialTotalWidth chars hr : ℚ) := by
      rw [hnum]
      exact_mod_cast hov
    exact ⟨by rw [finalScaled, if_pos hcond], by rw [finalSpacing, if_pos hcond]⟩
  · by_cases hov : 396 < initialTotalWidth chars hr
    · exact downscaled_total_le chars hr ht hov
    · have hle : initialTotalWidth chars hr ≤ 396 := by omega
      have hcond : ¬ ((CANVAS_W : ℚ) * charMaxWidthRatio <
          (initialTotalWidth chars hr : ℚ)) := by
        rw [hnum]
        push_neg
        exact_mod_cast hle
      rw [show finalScaled chars hr = scaledPass1 chars hr from by
        rw [finalScaled, if_neg hcond]]
      rw [show finalSpacing chars hr = charSpacing0 from by
        rw [finalSpacing, if_neg hcond]]
      exact hle
  · obtain ⟨a, rest2, hfsc⟩ := List.exists_cons_of_ne_nil hfs_ne
    obtain ⟨w, h⟩ := a
    have hlen2 : ((w, h) :: rest2).length = chars.length := by
      rw [← hfsc]
      exact hlen
    have hrc2 : render_characters chars hr =
        placeChars 560 (finalSpacing chars hr) ((w, h) :: rest2)
          (pyDiv ((CANVAS_W : ℤ) -
            totalWidthOf ((w, h) :: rest2) (finalSpacing chars hr) chars.length) 2) := by
      rw [hrc, hfsc]
    have hx : render_characters chars hr =
        (⟨w, h, pyDiv ((CANVAS_W : ℤ) -
            totalWidthOf ((w, h) :: rest2) (finalSpacing chars hr) chars.length) 2,
          560 - h⟩ : Placed) ::
          placeChars 560 (finalSpacing chars hr) rest2
            (pyDiv ((CANVAS_W : ℤ) -
              totalWidthOf ((w, h) :: rest2) (finalSpacing chars hr) chars.length) 2
              + w + finalSpacing chars hr) := by
      rw [hrc2]
      rfl
    refine ⟨_, _, hx, ?_, ?_⟩
    · show pyDiv ((CANVAS_W : ℤ) -
          totalWidthOf ((w, h) :: rest2) (finalSpacing chars hr) chars.length) 2 =
        pyDiv ((CANVAS_W : ℤ) -
          totalWidthOf (finalScaled chars hr) (finalSpacing chars hr) chars.length) 2
      rw [hfsc]
    · have hpx : ((⟨w, h, pyDiv ((CANVAS_W : ℤ) -
          totalWidthOf ((w, h) :: rest2) (finalSpacing chars hr) chars.length) 2,
          560 - h⟩ : Placed)).x =
          pyDiv ((CANVAS_W : ℤ) -
            totalWidthOf ((w, h) :: rest2) (finalSpacing chars hr) chars.length) 2 := rfl
      have htw2 : totalWidthOf ((w, h) :: rest2) (finalSpacing chars hr) chars.length =
          (((w, h) :: rest2).map Prod.fst).sum +
            (finalSpacing chars hr) * (((((w, h) :: rest2).length : ℕ) : ℤ) - 1) := by
        rw [← hlen2]
        exact totalWidthOf_eq _ _ (by simp)
      rw [hrc2, hfsc]
      rw [placeChars_lastEdge 560 (finalSpacing chars hr) ((w, h) :: rest2) _ (by simp)]
      rw [hpx, htw2]
      ring

/-- Witness for C5 at two concrete 800x800 characters and the default height
ratio 0.72: the downscaled total group width stays at most 396 pixels. -/
theorem c5_side_by_side_group_fit_witness :
    totalWidthOf (finalScaled [⟨800, 800⟩, ⟨800, 800⟩] (72/100))
      (finalSpacing [⟨800, 800⟩, ⟨800, 800⟩] (72/100)) 2 ≤ 396 := by
  have ht424 : charTargetSize (72/100) = 424 := by
    norm_num [charTargetSize, CANVAS_H, pyInt, Int.floor_eq_iff]
  exact (c5_side_by_side_group_fit [⟨800, 800⟩, ⟨800, 800⟩] (72/100) (by simp)
    (by rw [ht424]; norm_num)).2.2.1

theorem titleFitLoop_succ (p : CryptoTextParams) (n : ℕ) (r : ℚ) :
    titleFitLoop p (n + 1) r =
      match titleFitStep p r with
      | none => (r, 1)
      | some r2 => ((titleFitLoop p n r2).1, (titleFitLoop p n r2).2 + 1) := by
  rw [titleFitLoop]

theorem titleFitLoop_count_le (p : CryptoTextParams) (n : ℕ) (r : ℚ) :
    (titleFitLoop p n r).2 ≤ n := by
  induction n generalizing r with
  | zero => exact le_refl 0
  | succ k ih =>
    rw [titleFitLoop_succ]
    cases hs : titleFitStep p r with
    | none => simp
    | some r2 =>
      show (titleFitLoop p k r2).2 + 1 ≤ k + 1
      have := ih r2
      omega

theorem titleFitStep_some_eq (p : CryptoTextParams) (ratio r2 : ℚ)
    (h : titleFitStep p ratio = some r2) :
    r2 = ratio * (((available_width p : ℚ) /
        ((measure_text_block p.metrics p.numLines ratio p.canvas_h).2 : ℚ)) *
        titleFitDamping) ∨
    r2 = ratio * (((max_title_height p : ℚ) /
        ((measure_text_block p.metrics p.numLines ratio p.canvas_h).1 : ℚ)) *
        titleFitDamping) := by
  simp only [titleFitStep] at h
  by_cases hc1 : (((measure_text_block p.metrics p.numLines ratio p.canvas_h).2 : ℤ) ≤
      available_width p ∧
      (if p.hasProvider then
        (((measure_text_block p.metrics p.numLines ratio p.canvas_h).1 : ℤ) ≤
          max_title_height p) else True))
  · rw [if_pos hc1] at h
    exact absurd h (by simp)
  · rw [if_neg hc1] at h
    by_cases hfw : ¬ (((measure_text_block p.metrics p.numLines ratio p.canvas_h).2 : ℤ) ≤
        available_width p)
    · rw [if_pos hfw] at h
      injection h with h
      exact Or.inl h.symm
    · rw [if_neg hfw] at h
      injection h with h
      exact Or.inr h.symm

theorem titleFitStep_some_pos (p : CryptoTextParams) (ratio r2 : ℚ)
    (hr : 0 < ratio) (hA : 0 < available_width p)
    (hB : p.hasProvider = true → 0 < max_title_height p)
    (h : titleFitStep p ratio = some r2) : 0 < r2 := by
  have hd : (0 : ℚ) < titleFitDamping := by norm_num [titleFitDamping]
  have hAq : (0 : ℚ) < ((available_width p : ℤ) : ℚ) := by exact_mod_cast hA
  simp only [titleFitStep] at h
  by_cases hc1 : (((measure_text_block p.metrics p.numLines ratio p.canvas_h).2 : ℤ) ≤
      available_width p ∧
      (if p.hasProvider then
        (((measure_text_block p.metrics p.numLines ratio p.canvas_h).1 : ℤ) ≤
          max_title_height p) else True))
  · rw [if_pos hc1] at h
    exact absurd h (by simp)
  · rw [if_neg hc1] at h
    by_cases hfw : ¬ (((measure_text_block p.metrics p.numLines ratio p.canvas_h).2 : ℤ) ≤
        available_width p)
    · rw [if_pos hfw] at h
      injection h with h
      have hm2 : available_width p <
          ((measure_text_block p.metrics p.numLines ratio p.canvas_h).2 : ℤ) :=
        not_le.mp hfw
      have hm2q : (0 : ℚ) <
          ((measure_text_block p.metrics p.numLines ratio p.canvas_h).2 : ℚ) := by
        have hz : (0 : ℤ) <
            ((measure_text_block p.metrics p.numLines ratio p.canvas_h).2 : ℤ) :=
          lt_trans hA hm2
        exact_mod_cast hz
      rw [← h]
      exact mul_pos hr (mul_pos (div_pos hAq hm2q) hd)
    · rw [if_neg hfw] at h
      injection h with h
      have hfw2 : ((measure_text_block p.metrics p.numLines ratio p.canvas_h).2 : ℤ) ≤
          available_width p := not_not.mp hfw
      have hp : p.hasProvider = true := by
        by_contra hp
        have hpf : p.hasProvider = false := by
          cases hpv : p.hasProvider
          · rfl
          · exact absurd hpv hp
        exact hc1 ⟨hfw2, by rw [hpf]; simp⟩
      have hnh : ¬ (((measure_text_block p.metrics p.numLines ratio p.canvas_h).1 : ℤ) ≤
          max_title_height p) := by
        intro hh
        exact hc1 ⟨hfw2, by rw [hp]; simpa using hh⟩
      have hmt : 0 < max_title_height p := hB hp
      have hmtq : (0 : ℚ) < ((max_title_height p : ℤ) : ℚ) := by exact_mod_cast hmt
      have hm1q : (0 : ℚ) <
          ((measure_text_block p.metrics p.numLines ratio p.canvas_h).1 : ℚ) := by
        have hz : (0 : ℤ) <
            ((measure_text_block p.metrics p.numLines ratio p.canvas_h).1 : ℤ) :=
          lt_trans hmt (not_le.mp hnh)
        exact_mod_cast hz
      rw [← h]
      exact mul_pos hr (mul_pos (div_pos hmtq hm1q) hd)

theorem titleFitLoop_pos (p : CryptoTextParams) (hA : 0 < available_width p)
    (hB : p.hasProvider = true → 0 < max_title_height p) (n : ℕ) (r : ℚ) (hr : 0 < r) :
    0 < (titleFitLoop p n r).1 := by
  induction n generalizing r with
  | zero => exact hr
  | succ k ih =>
    rw [titleFitLoop_succ]
    cases hs : titleFitStep p r with
    | none => exact hr
    | some r2 =>
      show 0 < (titleFitLoop p k r2).1
      exact ih r2 (titleFitStep_some_pos p r r2 hr hA hB hs)

theorem providerFit_ge_floor (pm : LineMetrics) (cw ch : ℕ) :
    providerRatioFloor ≤ providerFit pm cw ch := by
  simp only [providerFit]
  split
  · exact le_max_left _ _
  · norm_num [providerRatioFloor]

/-- C2 (amended): in the crypto-card text fitter
(src/thumbgen/renderer/crypto_card.py) the title loop runs at most 10
iterations; every non-fitting measurement rescales the ratio by
(available / actual) times the damping 0.92, which lies in [0.85, 0.95];
the provider ratio is clamped to the floor 0.03, which lies in the
documented [0.025, 0.03] band; and the title ratio, which has no floor
clamp at all, still stays strictly positive whenever the text box is
positive.  (The claimed title floor of 0.05-0.06 does not exist in the
code; see the counterexample.) -/
theorem c2_text_fit_amended (p : CryptoTextParams) (pm : LineMetrics)
    (ratio r2 : ℚ) :
    (titleFit p).2 ≤ 10 ∧
    (titleFitStep p ratio = some r2 →
      (r2 = ratio * (((available_width p : ℚ) /
          ((measure_text_block p.metrics p.numLines ratio p.canvas_h).2 : ℚ)) *
          titleFitDamping) ∨
       r2 = ratio * (((max_title_height p : ℚ) /
          ((measure_text_block p.metrics p.numLines ratio p.canvas_h).1 : ℚ)) *
          titleFitDamping))) ∧
    ((85/100 : ℚ) ≤ titleFitDamping ∧ titleFitDamping ≤ 95/100) ∧
    (∀ cw ch : ℕ, providerRatioFloor ≤ providerFit pm cw ch) ∧
    ((1/40 : ℚ) ≤ providerRatioFloor ∧ providerRatioFloor ≤ 3/100) ∧
    (0 < p.text_scale → 0 < available_width p →
      (p.hasProvider = true → 0 < max_title_height p) → 0 < (titleFit p).1) := by
  refine ⟨titleFitLoop_count_le p 10 _, fun h => titleFitStep_some_eq p ratio r2 h,
    by norm_num [titleFitDamping], fun cw ch => providerFit_ge_floor pm cw ch,
    by norm_num [providerRatioFloor], ?_⟩
  intro h1 h2 h3
  exact titleFitLoop_pos p h2 h3 10 _ (mul_pos (by norm_num) h1)

/-- C2 counterexample: a sufficiently wide single-line title at the default
canvas drives the fitted title ratio down to 6969/1100000, about 0.0063 —
far below the claimed 0.05-0.06 floor — because the title loop of
render_crypto_card rescales the ratio with no floor clamp. -/
theorem c2_counterexample : (titleFit wideTitleParams).1 < 5/100 := by
  have hav : available_width wideTitleParams = 404 := by
    norm_num [available_width, wideTitleParams, pyInt, Int.floor_eq_iff]
  have hm1 : measure_text_block wideLineMetrics 1 (15/100) 590 = (88, 8800) := by
    norm_num [measure_text_block, wideLineMetrics, fontSizeOf, pyInt, Int.floor_eq_iff,
      List.range_succ]
    omega
  have hm2 : measure_text_block wideLineMetrics 1 (6969/1100000) 590 = (3, 300) := by
    norm_num [measure_text_block, wideLineMetrics, fontSizeOf, pyInt, Int.floor_eq_iff,
      List.range_succ]
    omega
  have hmetr : wideTitleParams.metrics = wideLineMetrics := rfl
  have hnl : wideTitleParams.numLines = 1 := rfl
  have hch : wideTitleParams.canvas_h = 590 := rfl
  have hhp : wideTitleParams.hasProvider = false := rfl
  have hstep1 : titleFitStep wideTitleParams (15/100) = some (6969/1100000) := by
    simp only [titleFitStep, hmetr, hnl, hch, hhp]
    rw [hm1, hav]
    norm_num [titleFitDamping]
  have hstep2 : titleFitStep wideTitleParams (6969/1100000) = none := by
    simp only [titleFitStep, hmetr, hnl, hch, hhp]
    rw [hm2, hav]
    norm_num
  have hts : (15/100 : ℚ) * wideTitleParams.text_scale = 15/100 := by
    norm_num [wideTitleParams]
  rw [titleFit, hts]
  rw [show (10 : ℕ) = 9 + 1 from rfl, titleFitLoop_succ]
  simp only [hstep1]
  show (titleFitLoop wideTitleParams 9 (6969/1100000)).1 < 5/100
  rw [show (9 : ℕ) = 8 + 1 from rfl, titleFitLoop_succ]
  simp only [hstep2]
  norm_num

/-- Witness for C2 (amended) at the concrete wide-title parameters: the
loop uses at most 10 measurements and the fitted title ratio stays
strictly positive. -/
theorem c2_text_fit_amended_witness :
    (titleFit wideTitleParams).2 ≤ 10 ∧ 0 < (titleFit wideTitleParams).1 := by
  have hA : 0 < available_width wideTitleParams := by
    rw [show available_width wideTitleParams = 404 from by
      norm_num [available_width, wideTitleParams, pyInt, Int.floor_eq_iff]]
    norm_num
  refine ⟨(c2_text_fit_amended wideTitleParams wideLineMetrics 0 0).1, ?_⟩
  exact (c2_text_fit_amended wideTitleParams wideLineMetrics 0 0).2.2.2.2.2
    (by norm_num [wideTitleParams]) hA
    (by intro hcontra; simp [wideTitleParams] at hcontra)

end Thumbgen
